import Mathlib

/-!
Shallow embedding of the `user-actions-api` repository (Go).

The embedded code:
* `src/types/types.go` — the `User` and `Action` records;
* `src/storage/storage.go` — `InMemoryStorage` with `users : map[int]User`
  and `actions : map[int]Action`; `GetUser`, `CountActionsByUserID`,
  `GetActions` (sorts the map's values by `(UserID, CreatedAt)` on every
  read) and `loadActions` (keyed insertion `s.actions[action.ID] = action`);
* `src/api/server.go` — `handleGetNextActionProbability` (adjacent-pair
  scan over the sorted action list) and `handleGetReferralIndex`
  (referral-map construction and per-root DFS with a visited set).

Go maps are modelled as association lists whose key order is some
enumeration order of the map (Go map iteration order is unspecified, so
every theorem that depends on it is stated over all input orders or is
order-insensitive).  `time.Time` values are modelled as integers compared
with `<` (mirroring `CreatedAt.Before`).  `float64` probabilities are
modelled as rationals, with `math.Round` embedded as exact
round-half-away-from-zero.
-/

namespace UserActionsApi

/-- `types.User` from `src/types/types.go`. -/
structure User where
  id : Int
  name : String
  createdAt : Int
  deriving DecidableEq, Repr

/-- `types.Action` from `src/types/types.go`. -/
structure Action where
  id : Int
  type : String
  userId : Int
  targetUser : Int
  createdAt : Int
  deriving DecidableEq, Repr

/-! ## Event store (`src/storage/storage.go`) -/

/-- The comparison `GetActions` sorts by (`storage.go`, the `sort.Slice`
less function): actions compare first by `UserID` ascending, then by
`CreatedAt` ascending.  This is the reflexive closure of the strict Go
comparator, i.e. the order the sorted output is `Pairwise`-related by. -/
def actionLE (a b : Action) : Prop :=
  a.userId < b.userId ∨ (a.userId = b.userId ∧ a.createdAt ≤ b.createdAt)

instance : DecidableRel actionLE := fun a b => by
  unfold actionLE; infer_instance

instance : IsTotal Action actionLE :=
  ⟨fun a b => by
    unfold actionLE
    rcases lt_trichotomy a.userId b.userId with h | h | h
    · exact Or.inl (Or.inl h)
    · rcases le_total a.createdAt b.createdAt with h' | h'
      · exact Or.inl (Or.inr ⟨h, h'⟩)
      · exact Or.inr (Or.inr ⟨h.symm, h'⟩)
    · exact Or.inr (Or.inl h)⟩

instance : IsTrans Action actionLE :=
  ⟨fun a b c hab hbc => by
    unfold actionLE at *
    rcases hab with h1 | ⟨h1, h1'⟩ <;> rcases hbc with h2 | ⟨h2, h2'⟩
    · exact Or.inl (h1.trans h2)
    · exact Or.inl (h2 ▸ h1)
    · exact Or.inl (h1 ▸ h2)
    · exact Or.inr ⟨h1.trans h2, h1'.trans h2'⟩⟩

/-- `InMemoryStorage.GetActions`: collect the values of the `actions` map
(the input list, in whatever order the map enumerates them) and sort them
by `UserID` then `CreatedAt`.  Sorting is modelled by insertion sort with
respect to `actionLE`, a sort that agrees with Go's `sort.Slice` on the
comparator (Go's sort is unstable, so on ties any sorted permutation is a
legal outcome; insertion sort produces one of them). -/
def GetActions (actions : List Action) : List Action :=
  List.insertionSort actionLE actions

/-- `InMemoryStorage.GetUser`: look the id up in the `users` map; `nil`
(here `none`) when absent. -/
def GetUser (users : List User) (id : Int) : Option User :=
  users.find? (fun u => u.id == id)

/-- `InMemoryStorage.CountActionsByUserID`: count the actions whose
`UserID` equals the argument. -/
def CountActionsByUserID (actions : List Action) (userID : Int) : Nat :=
  actions.countP (fun a => a.userId == userID)

/-- `InMemoryStorage.loadActions`, the map-filling loop
`s.actions[action.ID] = action`: keyed insertion into the `actions` map.
The map is an association list keyed by `Action.id`; inserting removes any
entry with the same key and appends the new record. -/
def insertAction (m : List Action) (a : Action) : List Action :=
  m.filter (fun b => b.id ≠ a.id) ++ [a]

/-- The `loadActions` loop `for _, action := range actions {
s.actions[action.ID] = action }`, starting from the empty map. -/
def loadActions (src : List Action) : List Action :=
  src.foldl insertAction []

/-- The source list with every record that is overwritten by a later
record of the same `id` removed: only the last occurrence of each id is
kept, in source order. -/
def dedupLastById (src : List Action) : List Action :=
  src.foldr (fun a acc => if a.id ∈ acc.map Action.id then acc else a :: acc) []

/-! ## API handlers (`src/api/server.go`) -/

/-- The distinct signals the handlers return instead of a success payload
(`server.go`: the `c.JSON(http.StatusBadRequest/NotFound, ...)` branches). -/
inductive ApiError where
  | invalidUserID
  | userNotFound
  | actionTypeRequired
  | noActionsFound
  | noReferralsFound
  deriving DecidableEq, Repr

instance exceptDecidableEq {ε α : Type} [DecidableEq ε] [DecidableEq α] :
    DecidableEq (Except ε α)
  | Except.error e, Except.error e' => decidable_of_iff (e = e') (by simp)
  | Except.error _, Except.ok _ => isFalse (by simp)
  | Except.ok _, Except.error _ => isFalse (by simp)
  | Except.ok a, Except.ok a' => decidable_of_iff (a = a') (by simp)

/-- The adjacent pairs `(actions[i], actions[i+1])` for
`i = 0 .. len(actions)-2` scanned by `handleGetNextActionProbability`. -/
def adjacentPairs (actions : List Action) : List (Action × Action) :=
  actions.zip actions.tail

/-- The qualifying pairs of the scan: `actions[i].Type == actionType &&
actions[i].UserID == actions[i+1].UserID` (`server.go` line 83). -/
def qualifyingPairs (actions : List Action) (actionType : String) :
    List (Action × Action) :=
  (adjacentPairs actions).filter
    (fun p => p.1.type == actionType && p.1.userId == p.2.userId)

/-- `totalNextActions`: one increment per qualifying pair. -/
def totalNextActions (actions : List Action) (actionType : String) : Nat :=
  (qualifyingPairs actions actionType).length

/-- The sequence of following-action types contributed by the qualifying
pairs (`nextAction := actions[i+1].Type`), in scan order. -/
def nextTypes (actions : List Action) (actionType : String) : List String :=
  (qualifyingPairs actions actionType).map (fun p => p.2.type)

/-- `actionCounts[nextAction]`: how many qualifying pairs are followed by
the given type. -/
def actionCount (actions : List Action) (actionType ty : String) : Nat :=
  (nextTypes actions actionType).count ty

/-- `math.Round`: round half away from zero, exactly, on rationals.
The sign test is on the numerator (`x.num < 0 ↔ x < 0`, since denominators
are positive) and the floor is the executable `Rat.floor`, so that the
function evaluates by kernel reduction. -/
def goRound (x : ℚ) : ℚ :=
  if x.num < 0 then -(Rat.floor (-x + 1/2) : ℤ) else (Rat.floor (x + 1/2) : ℤ)

/-- `math.Round(probability*100) / 100` (`server.go` line 94). -/
def round2 (q : ℚ) : ℚ :=
  goRound (q * 100) / 100

/-- The `result` map of `handleGetNextActionProbability`: one entry per
observed following type (the keys of `actionCounts`, listed in first
occurrence order — Go map iteration order is unspecified and no consumer
depends on it), each mapped to its rounded probability
`count / totalNextActions`. -/
def nextActionProbability (actions : List Action) (actionType : String) :
    List (String × ℚ) :=
  (nextTypes actions actionType).dedup.map
    (fun ty =>
      (ty, round2 ((actionCount actions actionType ty : ℚ) /
        (totalNextActions actions actionType : ℚ))))

/-- `handleGetNextActionProbability`, taking the action sequence the
handler obtains from `s.store.GetActions()`: an empty action type is
rejected before any computation, otherwise the probability map is a
successful result. -/
def handleGetNextActionProbability (actions : List Action)
    (actionType : String) : Except ApiError (List (String × ℚ)) :=
  if actionType = "" then Except.error ApiError.actionTypeRequired
  else Except.ok (nextActionProbability actions actionType)

/-- One step of the referral-map construction:
`referrals[action.UserID] = append(referrals[action.UserID], action.TargetUser)`.
The map is an association list; appending to a missing key creates it
(`append` to a `nil` slice in Go). -/
def addEdge : List (Int × List Int) → Int → Int → List (Int × List Int)
  | [], u, t => [(u, [t])]
  | (k, ts) :: rest, u, t =>
    if k = u then (k, ts ++ [t]) :: rest else (k, ts) :: addEdge rest u t

/-- The referral-map loop of `handleGetReferralIndex` (`server.go` lines
110–114): an action contributes the edge `UserID → TargetUser` iff its
type is "REFER_USER" and its target is nonzero. -/
def buildReferrals (actions : List Action) : List (Int × List Int) :=
  actions.foldl
    (fun rs a =>
      if a.type = "REFER_USER" ∧ a.targetUser ≠ 0 then
        addEdge rs a.userId a.targetUser
      else rs) []

/-- `referrals[user]`: a missing key reads as the empty (nil) list. -/
def targetsOf (rs : List (Int × List Int)) (u : Int) : List Int :=
  match rs.find? (fun p => p.1 == u) with
  | some p => p.2
  | none => []

/-- The recursive closure `dfs` of `handleGetReferralIndex`, with the
mutated state `(visited, referralIndex[userId])` passed explicitly:
a visited node returns the state unchanged; otherwise the node is marked
visited, every target is traversed in order, and the counter is then
incremented once.  Go terminates through the visited check alone; here a
fuel argument makes the recursion structural — any fuel exceeding the
number of distinct graph nodes is never exhausted. -/
def dfs (rs : List (Int × List Int)) : Nat → Int → List Int × Nat → List Int × Nat
  | 0 => fun _ st => st
  | fuel + 1 => fun user st =>
    if user ∈ st.1 then st
    else
      let st' := (targetsOf rs user).foldl
        (fun s t => dfs rs fuel t s) (user :: st.1, st.2)
      (st'.1, st'.2 + 1)

/-- Every node id mentioned by the referral map (keys and targets); its
length bounds the size of any visited set. -/
def graphNodes (rs : List (Int × List Int)) : List Int :=
  rs.foldr (fun p acc => p.1 :: (p.2 ++ acc)) []

/-- The per-root computation: a fresh empty visited set and a fresh zero
counter, then `dfs` on each of the root's direct referral targets
(`server.go` lines 140–143); the root's referral index is the final
counter. -/
def referralIndexOf (rs : List (Int × List Int)) (root : Int) : Nat :=
  ((targetsOf rs root).foldl
    (fun s t => dfs rs ((graphNodes rs).length + 1) t s) ([], 0)).2

/-- `handleGetReferralIndex`, taking the action sequence obtained from
`s.store.GetActions()`: zero actions signal `noActionsFound`; an empty
referral map signals `noReferralsFound`; otherwise the result maps every
referral-map key (every user with at least one outgoing referral) to its
referral index. -/
def handleGetReferralIndex (actions : List Action) :
    Except ApiError (List (Int × Nat)) :=
  if actions.length = 0 then Except.error ApiError.noActionsFound
  else
    let referrals := buildReferrals actions
    if referrals.length = 0 then Except.error ApiError.noReferralsFound
    else
      Except.ok (referrals.map (fun p => (p.1, referralIndexOf referrals p.1)))

/-- The referral index the query reports for one user: the value at that
key of the success payload, `none` when the key is absent or the query
signalled an error. -/
def referralIndexAt (actions : List Action) (u : Int) : Option Nat :=
  match handleGetReferralIndex actions with
  | Except.ok rs => (rs.find? (fun p => p.1 == u)).map Prod.snd
  | Except.error _ => none

end UserActionsApi

namespace UserActionsApi

/-- C2: `GetActions` returns, for any enumeration order of the stored
action map, the full collection (a permutation of the stored values)
sorted by `userId` ascending and, within equal `userId`, by `createdAt`
ascending. -/
theorem GetActions_sorted_and_complete (l : List Action) :
    List.Sorted actionLE (GetActions l) ∧ List.Perm (GetActions l) l :=
  ⟨List.sorted_insertionSort actionLE l, List.perm_insertionSort actionLE l⟩

/-- C9: a user id present nowhere in the store — no user record carries it
and no action references it as subject — yields `GetUser = none`
(not-found) and `CountActionsByUserID = 0`, whatever else the store
contains. -/
theorem getUser_countActions_absent (users : List User) (actions : List Action)
    (uid : Int) (hu : ∀ u ∈ users, u.id ≠ uid) (ha : ∀ a ∈ actions, a.userId ≠ uid) :
    GetUser users uid = none ∧ CountActionsByUserID actions uid = 0 := by
  constructor
  · rw [GetUser, List.find?_eq_none]
    intro u hu'
    simpa using hu u hu'
  · rw [CountActionsByUserID, List.countP_eq_zero]
    intro a ha'
    simpa using ha a ha'

/-- The two-cycle referral store: user 1 refers user 2 and user 2 refers
user 1. -/
def cycleActions : List Action :=
  [⟨1, "REFER_USER", 1, 2, 0⟩, ⟨2, "REFER_USER", 2, 1, 1⟩]

/-- The diamond referral store: user 1 refers users 2 and 3, and both
user 2 and user 3 refer user 4. -/
def diamondActions : List Action :=
  [⟨1, "REFER_USER", 1, 2, 0⟩, ⟨2, "REFER_USER", 1, 3, 1⟩,
   ⟨3, "REFER_USER", 2, 4, 2⟩, ⟨4, "REFER_USER", 3, 4, 3⟩]

/-- The chain referral store: edges 1→2, 2→3, 3→4, 1→5. -/
def chainActions : List Action :=
  [⟨1, "REFER_USER", 1, 2, 0⟩, ⟨2, "REFER_USER", 2, 3, 1⟩,
   ⟨3, "REFER_USER", 3, 4, 2⟩, ⟨4, "REFER_USER", 1, 5, 3⟩]

/-- C1 counterexample: on the two-cycle 1→2, 2→1 the referral index query
does not report `{1: 1, 2: 1}` — the DFS launched from user 1's target
reaches user 1 itself, marks it visited and increments user 1's own
counter, so the root is added to its own index. -/
theorem referralIndex_cycle_counterexample :
    ¬ (referralIndexAt (GetActions cycleActions) 1 = some 1 ∧
      referralIndexAt (GetActions cycleActions) 2 = some 1) := by
  decide

/-- C1 amended: referral cycles terminate (the visited set stops the
traversal) but the root is counted in its own index whenever it is
reachable from one of its targets: on the two-cycle 1→2, 2→1 the query
reports `referralIndex[1] = 2` and `referralIndex[2] = 2`. -/
theorem referralIndex_cycle :
    referralIndexAt (GetActions cycleActions) 1 = some 2 ∧
      referralIndexAt (GetActions cycleActions) 2 = some 2 := by
  decide

/-- C3: the diamond 1→{2,3}, 2→4, 3→4 is deduplicated inside user 1's
subtree — user 4 is counted once, so `referralIndex[1] = 3`, not 4. -/
theorem referralIndex_diamond :
    referralIndexAt (GetActions diamondActions) 1 = some 3 ∧
      referralIndexAt (GetActions diamondActions) 1 ≠ some 4 := by
  decide

/-- C4: the edge set 1→2, 2→3, 3→4, 1→5 yields exactly the mapping
`{1: 4, 2: 2, 3: 1}`; users 4 and 5, which never appear as referral
sources, are absent from the mapping rather than present with value 0. -/
theorem referralIndex_chain :
    handleGetReferralIndex (GetActions chainActions) =
        Except.ok [(1, 4), (2, 2), (3, 1)] ∧
      referralIndexAt (GetActions chainActions) 4 = none ∧
      referralIndexAt (GetActions chainActions) 5 = none := by
  decide

/-- `buildReferrals` produces the empty map when no action both has the
relation-forming type and a nonzero target. -/
theorem buildReferrals_eq_nil (l : List Action)
    (h : ∀ a ∈ l, ¬(a.type = "REFER_USER" ∧ a.targetUser ≠ 0)) :
    buildReferrals l = [] := by
  have key : ∀ rs, l.foldl
      (fun rs a =>
        if a.type = "REFER_USER" ∧ a.targetUser ≠ 0 then
          addEdge rs a.userId a.targetUser
        else rs) rs = rs := by
    induction l with
    | nil => intro rs; rfl
    | cons a l ih =>
      intro rs
      rw [List.foldl_cons, if_neg (h a (List.mem_cons_self a l))]
      exact ih (fun b hb => h b (List.mem_cons_of_mem a hb)) rs
  exact key []

/-- C8: the referral index query distinguishes its two failure signals —
an empty store signals "No actions found", and a nonempty store with no
action of the relation-forming type with a nonzero target signals
"No referrals found"; in both cases the result is an error, never an
empty mapping. -/
theorem handleGetReferralIndex_signals (store : List Action) :
    (store = [] →
      handleGetReferralIndex (GetActions store) =
        Except.error ApiError.noActionsFound) ∧
    (store ≠ [] →
      (∀ a ∈ store, ¬(a.type = "REFER_USER" ∧ a.targetUser ≠ 0)) →
      handleGetReferralIndex (GetActions store) =
        Except.error ApiError.noReferralsFound) := by
  constructor
  · rintro rfl
    rfl
  · intro hne hq
    have hlen : (GetActions store).length = store.length :=
      (List.perm_insertionSort actionLE store).length_eq
    have hlen' : (GetActions store).length ≠ 0 := by
      rw [hlen]
      simpa [List.length_eq_zero] using hne
    have hmem : ∀ a ∈ GetActions store, ¬(a.type = "REFER_USER" ∧ a.targetUser ≠ 0) :=
      fun a ha =>
        hq a ((List.perm_insertionSort actionLE store).mem_iff.mp ha)
    rw [handleGetReferralIndex, if_neg hlen',
      buildReferrals_eq_nil (GetActions store) hmem]
    rfl

/-- Witness for C8: the empty store signals "No actions found", and a
one-action store whose only action is a WELCOME with a nonzero target
signals "No referrals found". -/
theorem handleGetReferralIndex_signals_witness :
    handleGetReferralIndex (GetActions []) =
        Except.error ApiError.noActionsFound ∧
      handleGetReferralIndex (GetActions [⟨1, "WELCOME", 1, 2, 0⟩]) =
        Except.error ApiError.noReferralsFound :=
  ⟨(handleGetReferralIndex_signals []).1 rfl,
    (handleGetReferralIndex_signals [⟨1, "WELCOME", 1, 2, 0⟩]).2
      (by decide) (by decide)⟩

/-- The six-action sorted store of the concrete estimator scenario:
three actions of user 1, one of user 2, two of user 3, with strictly
increasing timestamps. -/
def scenarioActions : List Action :=
  [⟨1, "WELCOME", 1, 0, 0⟩, ⟨2, "CONNECT_CRM", 1, 0, 1⟩,
   ⟨3, "ADD_CONTACT", 1, 0, 2⟩, ⟨4, "EDIT_CONTACT", 2, 0, 3⟩,
   ⟨5, "WELCOME", 3, 0, 4⟩, ⟨6, "VIEW_CONTACTS", 3, 0, 5⟩]

/-- C5: on the sorted six-action scenario, querying "WELCOME" yields
`{CONNECT_CRM: 0.5, VIEW_CONTACTS: 0.5}`, querying "CONNECT_CRM" yields
`{ADD_CONTACT: 1.0}`, and querying "UNKNOWN_ACTION" yields the empty
mapping; the pair `(u=1, ADD_CONTACT) , (u=2, EDIT_CONTACT)` crosses the
boundary between two users' timelines and is excluded by the `userId`
equality test, so querying "ADD_CONTACT" also yields the empty mapping. -/
theorem nextActionProbability_scenario :
    handleGetNextActionProbability (GetActions scenarioActions) "WELCOME" =
        Except.ok [("CONNECT_CRM", 1/2), ("VIEW_CONTACTS", 1/2)] ∧
      handleGetNextActionProbability (GetActions scenarioActions) "CONNECT_CRM" =
        Except.ok [("ADD_CONTACT", 1)] ∧
      handleGetNextActionProbability (GetActions scenarioActions) "UNKNOWN_ACTION" =
        Except.ok [] ∧
      handleGetNextActionProbability (GetActions scenarioActions) "ADD_CONTACT" =
        Except.ok [] := by
  refine ⟨?_, ?_, ?_, ?_⟩ <;> decide!

/-- C7: whenever the total qualifying-pair count is zero and the queried
type is nonempty, the estimator returns the empty mapping as a successful
result, not an error. -/
theorem nextActionProbability_total_zero (actions : List Action)
    (actionType : String) (ht : actionType ≠ "")
    (h : totalNextActions actions actionType = 0) :
    handleGetNextActionProbability actions actionType = Except.ok [] := by
  have hq : qualifyingPairs actions actionType = [] :=
    List.length_eq_zero.mp h
  rw [handleGetNextActionProbability, if_neg ht]
  simp [nextActionProbability, nextTypes, hq]

/-- Witness for C7: in the six-action scenario the type "UNKNOWN_ACTION"
never occurs, so its qualifying-pair count is zero and the query succeeds
with the empty mapping. -/
theorem nextActionProbability_total_zero_witness :
    "UNKNOWN_ACTION" ≠ "" ∧
      totalNextActions (GetActions scenarioActions) "UNKNOWN_ACTION" = 0 ∧
      handleGetNextActionProbability (GetActions scenarioActions)
        "UNKNOWN_ACTION" = Except.ok [] :=
  ⟨by decide, by rfl,
    nextActionProbability_total_zero (GetActions scenarioActions)
      "UNKNOWN_ACTION" (by decide) (by rfl)⟩

/-- `Rat.floor` is the mathematical floor. -/
theorem ratFloor_eq_floor (r : ℚ) : Rat.floor r = ⌊r⌋ :=
  (Rat.floor_def' r).trans Rat.floor_def.symm

/-- Rounding half away from zero moves a rational by at most 1/2. -/
theorem abs_goRound_sub (x : ℚ) : |goRound x - x| ≤ 1 / 2 := by
  have bound : ∀ y : ℚ, |((⌊y + 1 / 2⌋ : ℤ) : ℚ) - y| ≤ 1 / 2 := by
    intro y
    rw [abs_le]
    constructor
    · have := Int.lt_floor_add_one (y + 1 / 2)
      linarith
    · have := Int.floor_le (y + 1 / 2)
      linarith
  unfold goRound
  rw [ratFloor_eq_floor, ratFloor_eq_floor]
  split
  · have h := bound (-x)
    calc |-((⌊-x + 1 / 2⌋ : ℤ) : ℚ) - x|
        = |((⌊-x + 1 / 2⌋ : ℤ) : ℚ) - -x| := by rw [← abs_neg]; ring_nf
      _ ≤ 1 / 2 := h
  · exact bound x

/-- Two-decimal rounding moves a rational by at most 1/200. -/
theorem abs_round2_sub (q : ℚ) : |round2 q - q| ≤ 1 / 200 := by
  have h := abs_goRound_sub (q * 100)
  rw [round2]
  have : goRound (q * 100) / 100 - q = (goRound (q * 100) - q * 100) / 100 := by
    ring
  rw [this, abs_div]
  rw [show |(100 : ℚ)| = 100 by norm_num]
  linarith

/-- Summing pointwise-close functions over a list keeps the sums within
`length * c` of each other. -/
theorem abs_sum_map_sub_le {α : Type} (l : List α) (f g : α → ℚ) (c : ℚ)
    (h : ∀ x ∈ l, |f x - g x| ≤ c) :
    |(l.map f).sum - (l.map g).sum| ≤ l.length * c := by
  induction l with
  | nil => simp
  | cons a l ih =>
    have ha := h a (List.mem_cons_self a l)
    have hl := ih (fun x hx => h x (List.mem_cons_of_mem a hx))
    have key : |(f a + (l.map f).sum) - (g a + (l.map g).sum)| ≤
        |f a - g a| + |(l.map f).sum - (l.map g).sum| := by
      have := abs_add (f a - g a) ((l.map f).sum - (l.map g).sum)
      calc |(f a + (l.map f).sum) - (g a + (l.map g).sum)|
          = |(f a - g a) + ((l.map f).sum - (l.map g).sum)| := by ring_nf
        _ ≤ _ := this
    simp only [List.map_cons, List.sum_cons, List.length_cons]
    calc |(f a + (l.map f).sum) - (g a + (l.map g).sum)|
        ≤ |f a - g a| + |(l.map f).sum - (l.map g).sum| := key
      _ ≤ c + l.length * c := by gcongr
      _ = (l.length + 1) * c := by ring
      _ = ((l.length + 1 : ℕ) : ℚ) * c := by push_cast; ring

/-- Dividing each summand by a constant divides the sum. -/
theorem sum_map_div {α : Type} (l : List α) (f : α → ℚ) (c : ℚ) :
    (l.map (fun x => f x / c)).sum = (l.map f).sum / c := by
  induction l with
  | nil => simp
  | cons a l ih => simp [ih, add_div]

/-- The exact (unrounded) probabilities over the observed following types
sum to 1 when the qualifying-pair total is nonzero. -/
theorem exact_prob_sum (actions : List Action) (t : String)
    (h : totalNextActions actions t ≠ 0) :
    ((nextTypes actions t).dedup.map
      (fun ty => (actionCount actions t ty : ℚ) /
        (totalNextActions actions t : ℚ))).sum = 1 := by
  have hlen : (nextTypes actions t).length = totalNextActions actions t := by
    rw [nextTypes, totalNextActions, List.length_map]
  have hcounts := List.sum_map_count_dedup_eq_length (nextTypes actions t)
  have hcast : ((nextTypes actions t).dedup.map
      (fun ty => ((nextTypes actions t).count ty : ℚ))).sum =
      ((nextTypes actions t).length : ℚ) := by
    have := congrArg (fun n : ℕ => (n : ℚ)) hcounts
    push_cast at this
    simpa using this
  rw [sum_map_div]
  simp only [actionCount]
  rw [hcast, hlen, div_self]
  exact_mod_cast h

/-- C6: whenever the qualifying-pair total is nonzero, the reported
(rounded) probabilities sum to 1 up to the rounding error of the entries:
the sum differs from 1 by at most `entries / 200`, each entry
contributing at most half of 0.01. -/
theorem nextActionProbability_sum_near_one (actions : List Action)
    (t : String) (h : totalNextActions actions t ≠ 0) :
    |(((nextActionProbability actions t).map Prod.snd).sum) - 1| ≤
      ((nextActionProbability actions t).length : ℚ) / 200 := by
  have hm : (nextActionProbability actions t).map Prod.snd =
      (nextTypes actions t).dedup.map
        (fun ty => round2 ((actionCount actions t ty : ℚ) /
          (totalNextActions actions t : ℚ))) := by
    rw [nextActionProbability, List.map_map]
    rfl
  have hlen : (nextActionProbability actions t).length =
      (nextTypes actions t).dedup.length := by
    rw [nextActionProbability, List.length_map]
  rw [hm, hlen]
  have hsum := exact_prob_sum actions t h
  calc |((nextTypes actions t).dedup.map
        (fun ty => round2 ((actionCount actions t ty : ℚ) /
          (totalNextActions actions t : ℚ)))).sum - 1|
      = |((nextTypes actions t).dedup.map
          (fun ty => round2 ((actionCount actions t ty : ℚ) /
            (totalNextActions actions t : ℚ)))).sum -
        ((nextTypes actions t).dedup.map
          (fun ty => (actionCount actions t ty : ℚ) /
            (totalNextActions actions t : ℚ))).sum| := by rw [hsum]
    _ ≤ (nextTypes actions t).dedup.length * (1 / 200) :=
        abs_sum_map_sub_le _ _ _ _ (fun ty _ => abs_round2_sub _)
    _ = ((nextTypes actions t).dedup.length : ℚ) / 200 := by ring

/-- Witness for C6: the six-action scenario queried with "WELCOME" has
two qualifying pairs, and the bound holds there. -/
theorem nextActionProbability_sum_near_one_witness :
    totalNextActions (GetActions scenarioActions) "WELCOME" ≠ 0 ∧
      |(((nextActionProbability (GetActions scenarioActions) "WELCOME").map
          Prod.snd).sum) - 1| ≤
        ((nextActionProbability (GetActions scenarioActions)
          "WELCOME").length : ℚ) / 200 :=
  ⟨by decide,
    nextActionProbability_sum_near_one (GetActions scenarioActions)
      "WELCOME" (by decide)⟩

theorem dedupLastById_cons (a : Action) (l : List Action) :
    dedupLastById (a :: l) =
      if a.id ∈ (dedupLastById l).map Action.id then dedupLastById l
      else a :: dedupLastById l := rfl

/-- The ids surviving deduplication are exactly the ids of the source. -/
theorem mem_map_id_dedupLastById (l : List Action) (x : Int) :
    x ∈ (dedupLastById l).map Action.id ↔ x ∈ l.map Action.id := by
  induction l generalizing x with
  | nil => simp [dedupLastById]
  | cons a l ih =>
    rw [dedupLastById_cons]
    by_cases h : a.id ∈ (dedupLastById l).map Action.id
    · rw [if_pos h, ih]
      have ha : a.id ∈ l.map Action.id := (ih a.id).mp h
      simp only [List.map_cons, List.mem_cons]
      constructor
      · exact Or.inr
      · rintro (rfl | hx)
        · exact ha
        · exact hx
    · rw [if_neg h]
      simp [List.mem_cons, ih]

/-- Invariant of the `loadActions` fold: after inserting a source prefix
into map state `s`, the map holds the entries of `s` whose ids the prefix
does not overwrite, followed by the prefix's retained (last-per-id)
records in last-occurrence order. -/
theorem foldl_insertAction_eq (l : List Action) :
    ∀ s : List Action,
      l.foldl insertAction s =
        s.filter (fun x => x.id ∉ l.map Action.id) ++ dedupLastById l := by
  induction l with
  | nil =>
    intro s
    simp [dedupLastById]
  | cons a l ih =>
    intro s
    rw [List.foldl_cons, ih (insertAction s a)]
    rw [insertAction, List.filter_append, List.filter_filter]
    have hpred : ∀ x : Action,
        (decide (x.id ∉ l.map Action.id) && decide (x.id ≠ a.id)) =
          decide (x.id ∉ (a :: l).map Action.id) := by
      intro x
      rw [← Bool.decide_and]
      exact decide_eq_decide.mpr (by simp [List.mem_cons]; tauto)
    rw [List.filter_congr (fun x _ => hpred x)]
    by_cases h : a.id ∈ l.map Action.id
    · rw [dedupLastById_cons,
        if_pos ((mem_map_id_dedupLastById l a.id).mpr h)]
      have : List.filter (fun x => decide (x.id ∉ l.map Action.id)) [a] = [] := by
        obtain ⟨x, hx, hid⟩ := List.mem_map.mp h
        have hne : ¬(∀ y ∈ l, ¬y.id = a.id) := fun hall => hall x hx hid
        simp [List.filter_singleton, hne]
      rw [this, List.append_nil]
    · rw [dedupLastById_cons,
        if_neg (fun hc => h ((mem_map_id_dedupLastById l a.id).mp hc))]
      have : List.filter (fun x => decide (x.id ∉ l.map Action.id)) [a] = [a] := by
        have hall : ∀ y ∈ l, ¬y.id = a.id :=
          fun y hy heq => h (List.mem_map.mpr ⟨y, hy, heq⟩)
        have hd : decide (∀ y ∈ l, ¬y.id = a.id) = true := decide_eq_true hall
        simp [List.filter_singleton, hd]
      rw [this, List.append_assoc]
      rfl

/-- Loading a source through the id-keyed map retains exactly the last
record per id, in last-occurrence order. -/
theorem loadActions_eq_dedupLastById (src : List Action) :
    loadActions src = dedupLastById src := by
  rw [loadActions, foldl_insertAction_eq]
  simp

theorem dedupLastById_idem (l : List Action) :
    dedupLastById (dedupLastById l) = dedupLastById l := by
  induction l with
  | nil => rfl
  | cons a l ih =>
    by_cases h : a.id ∈ (dedupLastById l).map Action.id
    · rw [dedupLastById_cons, if_pos h]
      exact ih
    · rw [dedupLastById_cons, if_neg h, dedupLastById_cons, ih, if_neg h]

/-- C10: a source with duplicate ids loads to the same store as the
source with all overwritten duplicates removed (only the record occurring
last per id is retained), so `CountActionsByUserID`, `GetActions`, the
next-action estimator and the referral index all behave as if the
overwritten duplicates were never loaded. -/
theorem loadActions_last_write_wins (src : List Action) :
    loadActions src = dedupLastById src ∧
      loadActions src = loadActions (dedupLastById src) ∧
      (∀ uid, CountActionsByUserID (loadActions src) uid =
        CountActionsByUserID (loadActions (dedupLastById src)) uid) ∧
      GetActions (loadActions src) =
        GetActions (loadActions (dedupLastById src)) ∧
      (∀ t, handleGetNextActionProbability (GetActions (loadActions src)) t =
        handleGetNextActionProbability
          (GetActions (loadActions (dedupLastById src))) t) ∧
      handleGetReferralIndex (GetActions (loadActions src)) =
        handleGetReferralIndex (GetActions (loadActions (dedupLastById src))) := by
  have h1 : loadActions src = dedupLastById src :=
    loadActions_eq_dedupLastById src
  have h2 : loadActions src = loadActions (dedupLastById src) := by
    rw [h1, loadActions_eq_dedupLastById, dedupLastById_idem]
  exact ⟨h1, h2, fun uid => by rw [h2], by rw [h2], fun t => by rw [h2],
    by rw [h2]⟩

/-- Witness for C9 at a concrete store: user id 7 appears neither among
the users nor among the actions. -/
theorem getUser_countActions_absent_witness :
    GetUser [⟨1, "Alice", 0⟩, ⟨2, "Tom", 1⟩] 7 = none ∧
      CountActionsByUserID [⟨1, "WELCOME", 1, 0, 0⟩, ⟨2, "ADD_CONTACT", 2, 0, 1⟩] 7 = 0 :=
  getUser_countActions_absent [⟨1, "Alice", 0⟩, ⟨2, "Tom", 1⟩]
    [⟨1, "WELCOME", 1, 0, 0⟩, ⟨2, "ADD_CONTACT", 2, 0, 1⟩] 7
    (by decide) (by decide)

end UserActionsApi
